import Mathlib

/-!
Verification of the VCF header-metadata parsing code of the `scsnv` repository.

The development shallowly embeds the Python source:
* `scsnv/_vcf_header_parser.py` — the character-level tokenizer
  (`read_meta_hash`), the generic metadata reader (`read_meta`), the
  field-count codec (`vcf_field_count`) and the five regex-based structured
  line readers (`read_info`, `read_filter`, `read_alt`, `read_format`,
  `read_contig`).
* `scsnv/_core.py` — the line-splitting `read_vcf`.

Python strings are modelled as `List Char` (`Str`), Python `OrderedDict`
insertion as an in-place-updating association list, raised exceptions as
`Except`/`Option` error results, and the regular expressions of
`_vcf_metadata_parser` as hand-written matchers that reproduce the
greedy/backtracking semantics of `re.match` on the concrete patterns.
-/

set_option autoImplicit false

namespace Scsnv

/-- Python strings are modelled as lists of characters. -/
abbrev Str := List Char

/-! ## The quoted key/value tokenizer (`_vcf_metadata_parser.read_meta_hash`) -/

/-- The three scanner states of the tokenizer loop in `read_meta_hash`:
`state == 0` (reading an item key), `state == 1` (reading an item value) and
`state == 2` (reading a quoted item value). -/
inductive TState where
  | key
  | val
  | quoted
deriving DecidableEq, Repr

/-- The mutable variables of the `read_meta_hash` loop: the ordered
dictionary `val`, the state, and the key and value buffers `k` and `v`. -/
structure Scan where
  dict : List (Str × Str)
  st : TState
  k : Str
  v : Str
deriving DecidableEq, Repr

/-- Python `OrderedDict` assignment `d[k] = v`: if the key is present its
value is updated in place (keeping the key's original position), otherwise
the pair is appended at the end. -/
def odInsert (d : List (Str × Str)) (k v : Str) : List (Str × Str) :=
  if d.any (fun p => p.1 = k) then
    d.map (fun p => if p.1 = k then (k, v) else p)
  else
    d ++ [(k, v)]

/-- One iteration of the `for c in items[1].strip("[<>]")` loop of
`read_meta_hash`. -/
def stepc (s : Scan) (c : Char) : Scan :=
  match s.st with
  | .key =>
    if c = '=' then { s with st := .val }
    else { s with k := s.k ++ [c] }
  | .val =>
    if s.v = [] ∧ c = '"' then { s with v := s.v ++ [c], st := .quoted }
    else if c = ',' then ⟨odInsert s.dict s.k s.v, .key, [], []⟩
    else { s with v := s.v ++ [c] }
  | .quoted =>
    if c = '"' then { s with v := s.v ++ [c], st := .val }
    else { s with v := s.v ++ [c] }

/-- The initial loop state of `read_meta_hash`: empty dictionary, state 0,
empty `k` and `v` buffers. -/
def scanInit : Scan := ⟨[], .key, [], []⟩

/-- The code after the loop of `read_meta_hash`:
`if k != "": val[k] = v`. -/
def finishScan (s : Scan) : List (Str × Str) :=
  if s.k ≠ [] then odInsert s.dict s.k s.v else s.dict

/-- Tokenizing an attribute body (the text `items[1].strip("[<>]")` of
`read_meta_hash`) into the ordered dictionary of key/value pairs. -/
def tokenizeBody (body : Str) : List (Str × Str) :=
  finishScan (body.foldl stepc scanInit)

/-- Python `s.split("=", 1)`: the text before the first `'='` together with
the text after it (`none` when no `'='` occurs, in which case `items[1]`
raises an `IndexError`). -/
def splitOnceEq : Str → Str × Option Str
  | [] => ([], none)
  | c :: r =>
    if c = '=' then ([], some r)
    else
      let p := splitOnceEq r
      (c :: p.1, p.2)

/-- Membership in the character set of `strip("[<>]")`. -/
def isBr (c : Char) : Bool := c = '[' ∨ c = '<' ∨ c = '>' ∨ c = ']'

/-- Python `s.strip("[<>]")`: remove the characters `[`, `<`, `>`, `]` from
both ends of the string. -/
def stripBr (l : Str) : Str :=
  ((l.dropWhile isBr).reverse.dropWhile isBr).reverse

/-- The full `read_meta_hash`: split on the first `'='`, strip leading hash
marks from the key, strip the bracket characters from the remainder and run
the tokenizer loop over it.  `none` models the `IndexError` raised by
`items[1]` when the input has no `'='`. -/
def read_meta_hash (s : Str) : Option (Str × List (Str × Str)) :=
  match splitOnceEq s with
  | (_, none) => none
  | (pre, some post) =>
    some (pre.dropWhile (fun c => c = '#'), tokenizeBody (stripBr post))

/-! ## The generic metadata reader (`_vcf_metadata_parser.read_meta`) -/

/-- Scanner for `re.match("##.+=<", s)` after the literal `##`: is there an
occurrence of `=<` preceded by at least the current character, with every
skipped character a non-newline (the `.` class excludes `'\n'`)? -/
def seekEqLt : Str → Bool
  | [] => false
  | c :: r =>
    if c = '=' ∧ r.head? = some '<' then true
    else if c = '\n' then false
    else seekEqLt r

/-- Embedding of `re.match("##.+=<", meta_string)`: a literal `##`, then at
least one non-newline character, then the literal `=<`. -/
def hashBracketMatch : Str → Bool
  | c1 :: c2 :: c3 :: r =>
    if c1 = '#' ∧ c2 = '#' ∧ c3 ≠ '\n' then seekEqLt r else false
  | _ => false

/-- Embedding of the lazy/greedy match of
`meta_pattern = ##(?P<key>.+?)=(?P<val>.+)` after the literal `##`: the key
is the shortest nonempty non-newline prefix followed by a `'='` whose
remainder starts with at least one non-newline character; the value is the
greedy run of non-newline characters after that `'='`.  When a candidate
`'='` admits no nonempty value the `'='` is absorbed into the key and the
scan continues, exactly as the backtracking engine does. -/
def metaScan (acc : Str) : Str → Option (Str × Str)
  | [] => none
  | c :: rest =>
    if c = '\n' then none
    else if c = '=' then
      let v := rest.takeWhile (fun x => x ≠ '\n')
      if acc ≠ [] ∧ v ≠ [] then some (acc, v)
      else metaScan (acc ++ [c]) rest
    else metaScan (acc ++ [c]) rest

/-- Embedding of `meta_pattern.match(meta_string)`. -/
def metaMatch : Str → Option (Str × Str)
  | '#' :: '#' :: rest => metaScan [] rest
  | _ => none

/-- Value part of a generic metadata pair: either a scalar string or (for
bracketed lines) the ordered attribute dictionary of `read_meta_hash`. -/
inductive MetaVal where
  | scalar (s : Str)
  | mapping (d : List (Str × Str))
deriving DecidableEq, Repr

/-- The full `read_meta`: bracketed lines (`##.+=<`) go to
`read_meta_hash`; otherwise `meta_pattern` splits `##key=value` on the
first usable `'='`; otherwise the lenient fallback returns the line with
its hash marks stripped and the sentinel value `"none"`.  A `none` result
models an uncaught Python exception. -/
def read_meta (s : Str) : Option (Str × MetaVal) :=
  if hashBracketMatch s then
    (read_meta_hash s).map (fun p => (p.1, MetaVal.mapping p.2))
  else
    match metaMatch s with
    | some (k, v) => some (k, MetaVal.scalar v)
    | none => some (s.dropWhile (fun c => c = '#'), MetaVal.scalar "none".toList)

/-! ## The file splitter (`_core.read_vcf`) -/

/-- Does a line start with the two-character header marker `##`
(Python `line.startswith("##")`)? -/
def startsHH : Str → Bool
  | '#' :: '#' :: _ => true
  | _ => false

/-- One iteration of the `for line in r` loop of `_core.read_vcf` over the
state `(header, content, line)`. -/
def vcfStep (acc : Str × Str × Str) (line : Str) : Str × Str × Str :=
  if startsHH line then (acc.1 ++ line, acc.2.1, line)
  else (acc.1, acc.2.1 ++ line, line)

/-- Embedding of `_core.read_vcf`, with the file given as its Python line
iteration (each line keeps its trailing newline, except possibly the last).
The function returns `(header, line)` where `line` is the loop variable
after the loop — the last physical line — and the accumulated `content`
string is discarded.  On an empty file the loop never runs and the final
`return header, line` raises `NameError` (the loop variable is unbound),
modelled as `none`. -/
def read_vcf (lines : List Str) : Option (Str × Str) :=
  match lines with
  | [] => none
  | _ =>
    let st := lines.foldl vcfStep ([], [], [])
    some (st.1, st.2.2)

/-! ## The field-count codec (`vcf_field_count` and `field_counts`) -/

/-- Error values of the embedded parsers: `structuredLineMalformed tag raw`
models the `SyntaxError("One of the <tag> lines is malformed: <raw>")`
raised by the structured readers, and `fieldCountInvalid tok` models the
`ValueError` raised by `int(num_str)` inside `vcf_field_count`. -/
inductive PErr where
  | structuredLineMalformed (tag : Str) (raw : Str)
  | fieldCountInvalid (tok : Str)
deriving DecidableEq, Repr

/-- Python whitespace characters stripped by `int()` before parsing. -/
def isPyWs (c : Char) : Bool :=
  c = ' ' ∨ c = '\t' ∨ c = '\n' ∨ c = '\r' ∨ c = '\x0b' ∨ c = '\x0c'

/-- Digit run accepted by Python `int()` after the sign: decimal digits with
single underscores allowed only between digits. -/
def digitsCore (acc : Nat) : Str → Option Nat
  | [] => some acc
  | '_' :: c :: r =>
    if c.isDigit then digitsCore (acc * 10 + (c.toNat - 48)) r else none
  | c :: r =>
    if c.isDigit then digitsCore (acc * 10 + (c.toNat - 48)) r else none

/-- Embedding of Python `int(s)` on ASCII input: strip surrounding
whitespace, then an optional sign and a nonempty underscore-separated digit
run; `none` models the raised `ValueError`. -/
def pyInt (s : Str) : Option Int :=
  let t := ((s.dropWhile isPyWs).reverse.dropWhile isPyWs).reverse
  match t with
  | '-' :: c :: r =>
    if c.isDigit then (digitsCore (c.toNat - 48) r).map (fun n => -(n : Int))
    else none
  | '+' :: c :: r =>
    if c.isDigit then (digitsCore (c.toNat - 48) r).map (fun n => (n : Int))
    else none
  | c :: r =>
    if c.isDigit then (digitsCore (c.toNat - 48) r).map (fun n => (n : Int))
    else none
  | [] => none

/-- The `field_counts` table of `_vcf_header_parser.py`: `"."` maps to
`None` (unknown number of values), `"A"` to `-1` (per alternate allele),
`"G"` to `-2` (per genotype), `"R"` to `-3` (per allele including
reference). -/
def field_counts : List (Str × Option Int) :=
  [(".".toList, none),
   ("A".toList, some (-1)),
   ("G".toList, some (-2)),
   ("R".toList, some (-3))]

/-- Lookup in the `field_counts` table. -/
def fcLookup (t : Str) : Option (Option Int) :=
  (field_counts.find? (fun p => p.1 = t)).map (fun p => p.2)

/-- Embedding of `_vcf_metadata_parser.vcf_field_count`: `None` input stays
`None`; a token absent from `field_counts` is parsed with `int()` (a
failure raises, modelled as `fieldCountInvalid`); otherwise the table value
is returned. -/
def vcf_field_count : Option Str → Except PErr (Option Int)
  | none => .ok none
  | some t =>
    match fcLookup t with
    | some v => .ok v
    | none =>
      match pyInt t with
      | some n => .ok (some n)
      | none => .error (.fieldCountInvalid t)

/-! ## Embedding of the structured-line regular expressions

Each `re.compile(...)` pattern of `_vcf_metadata_parser.__init__` is embedded
as a hand-written matcher reproducing the prefix-match (`re.match`) and
greedy/backtracking semantics of the concrete pattern.  The `.` classes of
the patterns exclude `'\n'`; negated classes such as `[^,]` include it. -/

/-- Matching a literal pattern fragment: returns the remaining input when
the fragment is a prefix of the input. -/
def dropLiteral : Str → Str → Option Str
  | [], s => some s
  | _ :: _, [] => none
  | p :: ps, c :: cs => if p = c then dropLiteral ps cs else none

/-- The `\s*` fragments of the verbose patterns (Python whitespace). -/
def skipWs (s : Str) : Str := s.dropWhile isPyWs

/-- First successful application of `f` along a list of candidates, in
order; models the ordered alternatives explored by the backtracking
engine. -/
def firstSome {α β : Type} (f : α → Option β) : List α → Option β
  | [] => none
  | a :: l =>
    match f a with
    | some b => some b
    | none => firstSome f l

/-- All ways to split a string into a prefix and a suffix, shortest prefix
first. -/
def allSplits : Str → List (Str × Str)
  | [] => [([], [])]
  | c :: r => ([], c :: r) :: (allSplits r).map (fun p => (c :: p.1, p.2))

/-- The `-?\d+` alternative of the `Number` groups: an optional minus sign
followed by a greedy nonempty digit run. -/
def matchIntTok : Str → Option (Str × Str)
  | '-' :: r =>
    let d := r.takeWhile Char.isDigit
    if d = [] then none else some ('-' :: d, r.drop d.length)
  | r =>
    let d := r.takeWhile Char.isDigit
    if d = [] then none else some (d, r.drop d.length)

/-- The non-integer alternatives of `(-?\d+|\.|[AGR])?,`: a literal dot, one
of `A`/`G`/`R`, or (for the optional variant) the absent group — each
immediately followed by the comma that closes the field. -/
def numberGroupNoInt : Str → Option (Option Str × Str)
  | '.' :: ',' :: rest => some (some ['.'], rest)
  | 'A' :: ',' :: rest => some (some ['A'], rest)
  | 'G' :: ',' :: rest => some (some ['G'], rest)
  | 'R' :: ',' :: rest => some (some ['R'], rest)
  | ',' :: rest => some (none, rest)
  | _ => none

/-- The INFO pattern's `Number=(?P<number>-?\d+|\.|[AGR])?,` — the group is
optional, so a bare comma is accepted with an absent token. -/
def numberGroup (r : Str) : Option (Option Str × Str) :=
  match matchIntTok r with
  | some (t, rest) =>
    match rest with
    | ',' :: rest2 => some (some t, rest2)
    | _ => numberGroupNoInt r
  | none => numberGroupNoInt r

/-- The FORMAT pattern's `Number=(?P<number>-?\d+|\.|[AGR]),` — the group is
required here, so the absent alternative is not available. -/
def numberGroupReq (r : Str) : Option (Str × Str) :=
  match numberGroup r with
  | some (some t, rest) => some (t, rest)
  | _ => none

/-- The five words of the INFO pattern's
`Type=(?P<type>Integer|Float|Flag|Character|String)` alternation, in
pattern order.  No word is a prefix of another, so at most one matches. -/
def typeWords : List Str :=
  ["Integer".toList, "Float".toList, "Flag".toList, "Character".toList,
   "String".toList]

/-- Matching the `Type` alternation of the INFO pattern. -/
def typeAlt (r : Str) : Option (Str × Str) :=
  firstSome (fun w => (dropLiteral w r).map (fun rest => (w, rest))) typeWords

/-- The optional `(?:,\s*Source="(?P<source>[^"]*)")?` group of the INFO
pattern.  When the group fails the input is left untouched; skipping a
syntactically matching group can never rescue an otherwise failing match,
because the following fragments (`,\s*Version=` or `>`) cannot match text
beginning `,<ws>Source="..."`. -/
def srcOpt (r : Str) : Option Str × Str :=
  match r with
  | ',' :: r1 =>
    match dropLiteral "Source=\"".toList (skipWs r1) with
    | some r2 =>
      let v := r2.takeWhile (fun c => c ≠ '"')
      match r2.drop v.length with
      | '"' :: r3 => (some v, r3)
      | _ => (none, r)
    | none => (none, r)
  | _ => (none, r)

/-- Text before the last `'>'` of the string, when a `'>'` occurs. -/
def lastGtSplit (v : Str) : Option Str :=
  match v.reverse.dropWhile (fun c => c ≠ '>') with
  | '>' :: rest => some rest.reverse
  | _ => none

/-- Backtracking core of the INFO pattern's `Version="?(?P<version>[^"]*)"?`
followed by the closing `>`: first the greedy value with a consumed closing
quote directly followed by `>`; failing that, the value is shortened until
the optional closing quote is skipped and the next character is the `>`
itself — that is, the value ends just before its last `'>'`. -/
def verCore (t : Str) : Option Str :=
  let v := t.takeWhile (fun c => c ≠ '"')
  match t.drop v.length with
  | '"' :: '>' :: _ => some v
  | _ => lastGtSplit v

/-- Value of the optional `Version` group: the leading quote, when present,
is consumed by the greedy `"?`; declining it instead can never produce a
match that consuming it misses. -/
def verValue : Str → Option Str
  | '"' :: r4 => verCore r4
  | r3 => verCore r3

/-- The optional `(?:,\s*Version=...)?` group of the INFO pattern together
with the final `>` of the pattern (matching is prefix-only, so input after
the `>` is ignored). -/
def verEnd : Str → Option (Option Str)
  | '>' :: _ => some none
  | ',' :: r1 =>
    match dropLiteral "Version=".toList (skipWs r1) with
    | some r2 => (verValue r2).map (fun v => some v)
    | none => none
  | _ => none

/-- Common head of the INFO/FILTER/ALT patterns after their `ID=` literal:
`(?P<id>[^,]+),` — the nonempty greedy run of non-comma characters followed
by the comma. -/
def idComma (t : Str) : Option (Str × Str) :=
  let id := t.takeWhile (fun c => c ≠ ',')
  if id = [] then none
  else
    match t.drop id.length with
    | ',' :: r => some (id, r)
    | _ => none

/-- Matcher for the INFO pattern after `##INFO=<ID=<id>,`: the `Number`,
`Type` and `Description` fields and the optional `Source`/`Version`
groups.  Returns the captured groups
`(number?, type, desc, source?, version?)`. -/
def infoTail (r0 : Str) : Option (Option Str × Str × Str × Option Str × Option Str) :=
  match dropLiteral "Number=".toList (skipWs r0) with
  | none => none
  | some r1 =>
    match numberGroup r1 with
    | none => none
    | some (numTok, r2) =>
      match dropLiteral "Type=".toList (skipWs r2) with
      | none => none
      | some r3 =>
        match typeAlt r3 with
        | none => none
        | some (ty, r4) =>
          match r4 with
          | ',' :: r5 =>
            match dropLiteral "Description=\"".toList (skipWs r5) with
            | none => none
            | some r6 =>
              let desc := r6.takeWhile (fun c => c ≠ '"')
              match r6.drop desc.length with
              | '"' :: r7 =>
                let sp := srcOpt r7
                match verEnd sp.2 with
                | some ver => some (numTok, ty, desc, sp.1, ver)
                | none => none
              | _ => none
          | _ => none

/-- Full matcher for `info_pattern` (`re.match` semantics). -/
def parseInfo (s : Str) : Option (Str × Option Str × Str × Str × Option Str × Option Str) :=
  match dropLiteral "##INFO=<ID=".toList s with
  | none => none
  | some t => (idComma t).bind (fun p => (infoTail p.2).map (fun q => (p.1, q)))

/-- The shared `\s*Description="(?P<desc>[^"]*)">` tail of the FILTER and
ALT patterns. -/
def descTail (r : Str) : Option Str :=
  match dropLiteral "Description=\"".toList (skipWs r) with
  | none => none
  | some r1 =>
    let d := r1.takeWhile (fun c => c ≠ '"')
    match r1.drop d.length with
    | '"' :: '>' :: _ => some d
    | _ => none

/-- Full matcher for `filter_pattern`. -/
def parseFilter (s : Str) : Option (Str × Str) :=
  match dropLiteral "##FILTER=<ID=".toList s with
  | none => none
  | some t => (idComma t).bind (fun p => (descTail p.2).map (fun d => (p.1, d)))

/-- Full matcher for `alt_pattern`. -/
def parseAlt (s : Str) : Option (Str × Str) :=
  match dropLiteral "##ALT=<ID=".toList s with
  | none => none
  | some t => (idComma t).bind (fun p => (descTail p.2).map (fun d => (p.1, d)))

/-- The FORMAT pattern's `Description="(?P<desc>.*)">` tail: the greedy
`.*` may contain quotes, so the description extends to the last `"`
immediately followed by `>` (longest candidate first). -/
def descEnd (r : Str) : Option Str :=
  firstSome
    (fun p =>
      if '\n' ∈ p.1 then none
      else
        match p.2 with
        | '"' :: '>' :: _ => some p.1
        | _ => none)
    (allSplits r).reverse

/-- Matcher for the FORMAT pattern after `##FORMAT=<ID=<id>,`: required
`Number`, greedy `Type=(?P<type>.+)` (longest candidate first) and the
description tail. -/
def formatTail (r : Str) : Option (Str × Str × Str) :=
  match dropLiteral "Number=".toList (skipWs r) with
  | none => none
  | some r1 =>
    match numberGroupReq r1 with
    | none => none
    | some (tok, r2) =>
      match dropLiteral "Type=".toList (skipWs r2) with
      | none => none
      | some r3 =>
        firstSome
          (fun p =>
            if p.1 = [] ∨ '\n' ∈ p.1 then none
            else
              match p.2 with
              | ',' :: r4 =>
                match dropLiteral "Description=\"".toList (skipWs r4) with
                | none => none
                | some r5 => (descEnd r5).map (fun d => (tok, p.1, d))
              | _ => none)
          (allSplits r3).reverse

/-- Full matcher for `format_pattern`: unlike the other patterns the id is
the greedy `ID=(?P<id>.+),` — longest candidate first, so the id may absorb
commas when the rest of the line still matches. -/
def parseFormat (s : Str) : Option (Str × Str × Str × Str) :=
  match dropLiteral "##FORMAT=<ID=".toList s with
  | none => none
  | some t =>
    firstSome
      (fun p =>
        if p.1 = [] ∨ '\n' ∈ p.1 then none
        else
          match p.2 with
          | ',' :: r => (formatTail r).map (fun q => (p.1, q))
          | _ => none)
      (allSplits t).reverse

/-- Is there a `'>'` in the string preceded only by non-newline characters
(the `.*>` fragment of the contig pattern)? -/
def gtBeforeNl : Str → Bool
  | '>' :: _ => true
  | c :: r => if c = '\n' then false else gtBeforeNl r
  | [] => false

/-- All suffixes following an occurrence of the literal `length=` that is
preceded only by non-newline characters, left to right. -/
def lenSearch : Str → List Str
  | [] => []
  | c :: r =>
    let rest := if c = '\n' then [] else lenSearch r
    match dropLiteral "length=".toList (c :: r) with
    | some suf => suf :: rest
    | none => rest

/-- The contig pattern's `(,.*length=(?P<length>-?\d+))?.*>` tail: the
optional group prefers the rightmost `length=` occurrence (greedy `.*`)
whose digits are followed by a reachable `>`; when no occurrence works the
group is skipped and a reachable `>` alone suffices. -/
def contigTail (r : Str) : Option (Option Str) :=
  let grp : Option Str :=
    match r with
    | ',' :: r1 =>
      firstSome
        (fun suf =>
          match matchIntTok suf with
          | some (tok, r2) => if gtBeforeNl r2 then some tok else none
          | none => none)
        (lenSearch r1).reverse
    | _ => none
  match grp with
  | some tok => some (some tok)
  | none => if gtBeforeNl r then some none else none

/-- Full matcher for `contig_pattern`: the id is the greedy nonempty
`[^>,]+` run. -/
def parseContig (s : Str) : Option (Str × Option Str) :=
  match dropLiteral "##contig=<ID=".toList s with
  | none => none
  | some t =>
    let id := t.takeWhile (fun c => ¬(c = ',' ∨ c = '>'))
    if id = [] then none
    else (contigTail (t.drop id.length)).map (fun l => (id, l))

/-! ## The structured record readers -/

/-- The `Info` namedtuple. -/
structure Info where
  id : Str
  num : Option Int
  type : Str
  desc : Str
  source : Option Str
  version : Option Str
deriving DecidableEq, Repr

/-- The `Filter` namedtuple. -/
structure Filt where
  id : Str
  desc : Str
deriving DecidableEq, Repr

/-- The `Alt` namedtuple. -/
structure Alt where
  id : Str
  desc : Str
deriving DecidableEq, Repr

/-- The `Format` namedtuple. -/
structure Fmt where
  id : Str
  num : Option Int
  type : Str
  desc : Str
deriving DecidableEq, Repr

/-- The `Contig` namedtuple. -/
structure Contig where
  id : Str
  length : Option Int
deriving DecidableEq, Repr

/-- Embedding of `read_info`: on a pattern failure the `SyntaxError` carries
the tag `INFO` and the raw line; otherwise the `Number` token goes through
`vcf_field_count` and the record is assembled. -/
def read_info (s : Str) : Except PErr (Str × Info) :=
  match parseInfo s with
  | none => .error (.structuredLineMalformed "INFO".toList s)
  | some (id, numTok, ty, desc, src, ver) =>
    match vcf_field_count numTok with
    | .error e => .error e
    | .ok num => .ok (id, ⟨id, num, ty, desc, src, ver⟩)

/-- Embedding of `read_filter`. -/
def read_filter (s : Str) : Except PErr (Str × Filt) :=
  match parseFilter s with
  | none => .error (.structuredLineMalformed "FILTER".toList s)
  | some (id, desc) => .ok (id, ⟨id, desc⟩)

/-- Embedding of `read_alt`. -/
def read_alt (s : Str) : Except PErr (Str × Alt) :=
  match parseAlt s with
  | none => .error (.structuredLineMalformed "ALT".toList s)
  | some (id, desc) => .ok (id, ⟨id, desc⟩)

/-- Embedding of `read_format`. -/
def read_format (s : Str) : Except PErr (Str × Fmt) :=
  match parseFormat s with
  | none => .error (.structuredLineMalformed "FORMAT".toList s)
  | some (id, tok, ty, desc) =>
    match vcf_field_count (some tok) with
    | .error e => .error e
    | .ok num => .ok (id, ⟨id, num, ty, desc⟩)

/-- Embedding of `read_contig`. -/
def read_contig (s : Str) : Except PErr (Str × Contig) :=
  match parseContig s with
  | none => .error (.structuredLineMalformed "contig".toList s)
  | some (id, lenTok) =>
    match vcf_field_count lenTok with
    | .error e => .error e
    | .ok len => .ok (id, ⟨id, len⟩)

/-- The spec's `FieldCount` sum type (§3 of the design document). -/
inductive FieldCount where
  | fixed (n : Int)
  | perAltAllele
  | perGenotype
  | perAlleleIncludingRef
  | unknown
deriving DecidableEq, Repr

/-- The encoding the Python code uses for each `FieldCount` value: `None`
for unknown and the sentinel integers of the `field_counts` table
(`-1`, `-2`, `-3`) for the three per-record cardinalities. -/
def fieldCountCode : FieldCount → Option Int
  | .fixed n => some n
  | .perAltAllele => some (-1)
  | .perGenotype => some (-2)
  | .perAlleleIncludingRef => some (-3)
  | .unknown => none

/-! ## Helper lemmas about `read_vcf` -/

/-- The header component of the `read_vcf` loop state accumulates exactly
the `##`-prefixed lines, in file order. -/
theorem vcfFold_header (ls : List Str) :
    ∀ h c last, (ls.foldl vcfStep (h, c, last)).1 =
      (ls.filter startsHH).foldl (· ++ ·) h := by
  induction ls with
  | nil => intro h c last; rfl
  | cons a ls ih =>
    intro h c last
    rw [List.foldl_cons, List.filter_cons]
    cases ha : startsHH a <;> simp only [vcfStep, ha] <;>
      simp [ih]

/-- The `line` component of the `read_vcf` loop state is the last processed
line (or the initial value when no line was processed). -/
theorem vcfFold_last (ls : List Str) :
    ∀ init : Str × Str × Str,
      (ls.foldl vcfStep init).2.2 = ls.getLast?.getD init.2.2 := by
  induction ls with
  | nil => intro init; rfl
  | cons a ls ih =>
    intro init
    rw [List.foldl_cons, ih]
    cases ls with
    | nil =>
      simp only [List.getLast?_singleton, Option.getD_some, List.getLast?_nil,
        Option.getD_none]
      unfold vcfStep
      split <;> rfl
    | cons b l =>
      rw [List.getLast?_cons_cons]
      cases hg : (b :: l).getLast? with
      | none => exact absurd (List.getLast?_eq_none_iff.mp hg) (by simp)
      | some x => rfl

/-! ## Claim C2 — header consumption and the first non-header line -/

/-- Claim C2 is false of the code: `_core.read_vcf` keeps scanning after the
first non-header line, so a later `##` line is still appended to the header.
On the file `##a\n`, `x\n`, `##b\n` the returned header is `##a\n##b\n`,
not the `##a\n` the claim requires. -/
theorem c2_counterexample :
    read_vcf ["##a\n".toList, "x\n".toList, "##b\n".toList] =
      some ("##a\n##b\n".toList, "##b\n".toList) ∧
    "##a\n##b\n".toList ≠ "##a\n".toList := by
  refine ⟨rfl, by decide⟩

/-- Amended claim C2: header accumulation never stops — for every nonempty
file, the header returned by `read_vcf` is the concatenation of all lines
starting with `##`, wherever they occur in the file; lines after the first
non-header line are still added. -/
theorem c2_amended (ls : List Str) (h : ls ≠ []) :
    (read_vcf ls).map Prod.fst =
      some ((ls.filter startsHH).foldl (· ++ ·) []) := by
  cases ls with
  | nil => exact absurd rfl h
  | cons a l =>
    show some ((((a :: l).foldl vcfStep ([], [], []))).1) = _
    rw [vcfFold_header]

/-- Witness for `c2_amended` at a concrete three-line file. -/
theorem c2_amended_witness :
    (["##a\n".toList, "x\n".toList, "##b\n".toList] ≠ ([] : List Str)) ∧
    (read_vcf ["##a\n".toList, "x\n".toList, "##b\n".toList]).map Prod.fst =
      some (((["##a\n".toList, "x\n".toList, "##b\n".toList].filter
        startsHH)).foldl (· ++ ·) []) :=
  ⟨by decide, c2_amended _ (by decide)⟩

/-! ## Claim C9 — the second returned component is the last physical line -/

/-- Claim C9: the second component of `read_vcf`'s result is exactly the
final physical line of the file (the Python loop variable after the loop),
not the accumulated content; on a file whose body has two lines the second
component is just the last of them. -/
theorem c9_last_line :
    (∀ ls, (read_vcf ls).map Prod.snd = ls.getLast?) ∧
    read_vcf ["##h\n".toList, "a\n".toList, "b\n".toList] =
      some ("##h\n".toList, "b\n".toList) ∧
    "b\n".toList ≠ "a\nb\n".toList := by
  refine ⟨?_, rfl, by decide⟩
  intro ls
  cases ls with
  | nil => rfl
  | cons a l =>
    show some ((((a :: l).foldl vcfStep ([], [], []))).2.2) = _
    rw [vcfFold_last]
    cases hg : (a :: l).getLast? with
    | none => exact absurd (List.getLast?_eq_none_iff.mp hg) (by simp)
    | some x => rfl

/-! ## Claim C10 — read_vcf is partial: it fails on an empty file -/

/-- Claim C10: on a zero-line file the loop variable `line` is never bound
and the final `return header, line` raises (`none` in the embedding), and on
any file with at least one line `read_vcf` returns normally. -/
theorem c10_empty_file :
    read_vcf [] = none ∧ ∀ ls, ls ≠ [] → (read_vcf ls).isSome := by
  refine ⟨rfl, ?_⟩
  intro ls h
  cases ls with
  | nil => exact absurd rfl h
  | cons a l => rfl

/-- Witness for the hypothesis-bearing part of `c10_empty_file`. -/
theorem c10_empty_file_witness :
    (["x\n".toList] ≠ ([] : List Str)) ∧ (read_vcf ["x\n".toList]).isSome :=
  ⟨by decide, c10_empty_file.2 ["x\n".toList] (by decide)⟩

/-! ## Claim C4 — the field-count codec -/

/-- Claim C4: `vcf_field_count` maps `.` to the Unknown encoding (`None`),
`A`/`G`/`R` to the per-alt-allele, per-genotype and
per-allele-including-reference encodings (`-1`/`-2`/`-3`), an integer
literal such as `3` to the fixed count, and every token that is neither a
special code nor an integer literal to a `FieldCountInvalid` error carrying
the offending token. -/
theorem c4_field_count_codec :
    vcf_field_count (some ".".toList) = .ok (fieldCountCode .unknown) ∧
    vcf_field_count (some "A".toList) = .ok (fieldCountCode .perAltAllele) ∧
    vcf_field_count (some "G".toList) = .ok (fieldCountCode .perGenotype) ∧
    vcf_field_count (some "R".toList) =
      .ok (fieldCountCode .perAlleleIncludingRef) ∧
    vcf_field_count (some "3".toList) = .ok (fieldCountCode (.fixed 3)) ∧
    vcf_field_count (some "abc".toList) =
      .error (.fieldCountInvalid "abc".toList) ∧
    (∀ t n, fcLookup t = none → pyInt t = some n →
      vcf_field_count (some t) = .ok (fieldCountCode (.fixed n))) ∧
    (∀ t, fcLookup t = none → pyInt t = none →
      vcf_field_count (some t) = .error (.fieldCountInvalid t)) := by
  refine ⟨rfl, rfl, rfl, rfl, rfl, rfl, ?_, ?_⟩
  · intro t n h1 h2
    simp [vcf_field_count, h1, h2, fieldCountCode]
  · intro t h1 h2
    simp [vcf_field_count, h1, h2]

/-- Witness for the hypothesis-bearing parts of `c4_field_count_codec`. -/
theorem c4_field_count_codec_witness :
    (fcLookup "7".toList = none ∧ pyInt "7".toList = some 7 ∧
      vcf_field_count (some "7".toList) = .ok (fieldCountCode (.fixed 7))) ∧
    (fcLookup "abc".toList = none ∧ pyInt "abc".toList = none ∧
      vcf_field_count (some "abc".toList) =
        .error (.fieldCountInvalid "abc".toList)) :=
  ⟨⟨rfl, rfl, c4_field_count_codec.2.2.2.2.2.2.1 "7".toList 7 rfl rfl⟩,
   ⟨rfl, rfl, c4_field_count_codec.2.2.2.2.2.2.2 "abc".toList rfl rfl⟩⟩

/-! ## Claim C3 — the INFO Number token is in fact optional -/

/-- An INFO line with an explicitly absent Number token. -/
def infoNumberlessLine : Str :=
  "##INFO=<ID=X,Number=,Type=Integer,Description=\"d\">".toList

/-- A FORMAT line with an explicitly absent Number token. -/
def formatNumberlessLine : Str :=
  "##FORMAT=<ID=X,Number=,Type=String,Description=\"d\">".toList

/-- Claim C3 is false of the code: `info_pattern` makes the Number group
optional (`Number=(?P<number>-?\d+|\.|[AGR])?`), so an INFO line whose
Number token is absent is accepted — with `match.group("number") = None`
passed through `vcf_field_count` to the Unknown encoding — rather than
rejected. -/
theorem c3_counterexample :
    read_info infoNumberlessLine =
      .ok ("X".toList,
        ⟨"X".toList, none, "Integer".toList, "d".toList, none, none⟩) := rfl

/-- Amended claim C3: for an INFO line the Number token is optional in the
grammar — `Number=` with no token is accepted and mapped to the Unknown
encoding — while the FORMAT grammar keeps the token required and rejects
the same absence. -/
theorem c3_amended :
    read_info infoNumberlessLine =
      .ok ("X".toList,
        ⟨"X".toList, fieldCountCode .unknown, "Integer".toList, "d".toList,
          none, none⟩) ∧
    read_format formatNumberlessLine =
      .error (.structuredLineMalformed "FORMAT".toList formatNumberlessLine) :=
  ⟨rfl, rfl⟩

/-! ## Tokenizer invariants (claims C1 and C6) -/

/-- Replay property of a value buffer: scanning the string from state 1
with an empty value buffer changes neither the dictionary nor the key
buffer, commits nothing, and ends with the buffer holding exactly the
string, in the given state. -/
def ReplayTo (v : Str) (st : TState) : Prop :=
  ∀ d k, List.foldl stepc ⟨d, .val, k, []⟩ v = ⟨d, st, k, v⟩

/-- Property of every pair the tokenizer commits: the key contains no `=`
and the value replays cleanly from state 1. -/
def GoodPair (p : Str × Str) : Prop :=
  '=' ∉ p.1 ∧ (ReplayTo p.2 .val ∨ ReplayTo p.2 .quoted)

/-- Loop invariant of the `read_meta_hash` scanner. -/
def ScanInv (s : Scan) : Prop :=
  (∀ p ∈ s.dict, GoodPair p) ∧ ((s.dict.map Prod.fst).Nodup) ∧
    '=' ∉ s.k ∧
    ((s.st = .key ∧ s.v = []) ∨ (s.st = .val ∧ ReplayTo s.v .val) ∨
      (s.st = .quoted ∧ ReplayTo s.v .quoted))

/-- `OrderedDict` assignment preserves a pointwise property of the stored
pairs. -/
theorem odInsert_forall {P : Str × Str → Prop} (d : List (Str × Str))
    (k v : Str) (hd : ∀ p ∈ d, P p) (hkv : P (k, v)) :
    ∀ p ∈ odInsert d k v, P p := by
  unfold odInsert
  split
  · intro p hp
    simp only [List.mem_map] at hp
    obtain ⟨q, hq, hpq⟩ := hp
    by_cases hqk : q.1 = k
    · rw [if_pos hqk] at hpq
      exact hpq ▸ hkv
    · rw [if_neg hqk] at hpq
      exact hpq ▸ hd q hq
  · intro p hp
    rcases List.mem_append.mp hp with h | h
    · exact hd p h
    · simp only [List.mem_singleton] at h
      exact h ▸ hkv

/-- `OrderedDict` assignment preserves distinctness of the stored keys. -/
theorem odInsert_nodup (d : List (Str × Str)) (k v : Str)
    (h : (d.map Prod.fst).Nodup) : ((odInsert d k v).map Prod.fst).Nodup := by
  unfold odInsert
  split
  next hpres =>
    have : (d.map (fun p => if p.1 = k then (k, v) else p)).map Prod.fst =
        d.map Prod.fst := by
      rw [List.map_map]
      apply List.map_congr_left
      intro p _
      by_cases hpk : p.1 = k
      · simp [hpk]
      · simp [hpk]
    rw [this]
    exact h
  next habs =>
    have hk : k ∉ d.map Prod.fst := by
      intro hmem
      obtain ⟨p, hp, hpk⟩ := List.mem_map.mp hmem
      exact habs (List.any_eq_true.mpr ⟨p, hp, by simp [hpk]⟩)
    simp only [List.map_append, List.map_singleton]
    rw [List.nodup_append]
    exact ⟨h, List.nodup_singleton k, by simpa using hk⟩

/-- One tokenizer step preserves the loop invariant. -/
theorem scanInv_step (s : Scan) (c : Char) (h : ScanInv s) :
    ScanInv (stepc s c) := by
  obtain ⟨hd, hnd, hk, hst⟩ := h
  rcases hst with ⟨hkey, hv⟩ | ⟨hval, hrep⟩ | ⟨hq, hrep⟩
  · -- state 0: reading a key
    by_cases hc : c = '='
    · simp only [stepc, hkey, hc, if_pos rfl]
      refine ⟨hd, hnd, hk, Or.inr (Or.inl ⟨rfl, ?_⟩)⟩
      rw [hv]
      intro d k
      rfl
    · simp only [stepc, hkey, if_neg hc]
      refine ⟨hd, hnd, ?_, Or.inl ⟨rfl, hv⟩⟩
      simp only [List.mem_append, List.mem_singleton]
      rintro (hmem | hmem)
      · exact hk hmem
      · exact hc hmem.symm
  · -- state 1: reading a value
    by_cases hqv : s.v = [] ∧ c = '"'
    · simp only [stepc, hval, if_pos hqv]
      refine ⟨hd, hnd, hk, Or.inr (Or.inr ⟨rfl, ?_⟩)⟩
      intro d k
      rw [List.foldl_append, hrep d k, List.foldl_cons, List.foldl_nil]
      simp only [stepc, if_pos hqv]
    · by_cases hcc : c = ','
      · simp only [stepc, hval, if_neg hqv, if_pos hcc]
        refine ⟨odInsert_forall s.dict s.k s.v hd ⟨hk, Or.inl hrep⟩,
          odInsert_nodup s.dict s.k s.v hnd, by simp,
          Or.inl ⟨rfl, rfl⟩⟩
      · simp only [stepc, hval, if_neg hqv, if_neg hcc]
        refine ⟨hd, hnd, hk, Or.inr (Or.inl ⟨rfl, ?_⟩)⟩
        intro d k
        rw [List.foldl_append, hrep d k, List.foldl_cons, List.foldl_nil]
        simp only [stepc, if_neg hqv, if_neg hcc]
  · -- state 2: reading a quoted value
    by_cases hc : c = '"'
    · simp only [stepc, hq, if_pos hc]
      refine ⟨hd, hnd, hk, Or.inr (Or.inl ⟨rfl, ?_⟩)⟩
      intro d k
      rw [List.foldl_append, hrep d k, List.foldl_cons, List.foldl_nil]
      simp only [stepc, if_pos hc]
    · simp only [stepc, hq, if_neg hc]
      refine ⟨hd, hnd, hk, Or.inr (Or.inr ⟨rfl, ?_⟩)⟩
      intro d k
      rw [List.foldl_append, hrep d k, List.foldl_cons, List.foldl_nil]
      simp only [stepc, if_neg hc]

/-- The loop invariant is preserved along any input. -/
theorem scanInv_run (body : Str) :
    ∀ s : Scan, ScanInv s → ScanInv (body.foldl stepc s) := by
  induction body with
  | nil => intro s h; exact h
  | cons c r ih =>
    intro s h
    rw [List.foldl_cons]
    exact ih (stepc s c) (scanInv_step s c h)

/-- The initial scanner state satisfies the invariant. -/
theorem scanInv_init : ScanInv scanInit :=
  ⟨by intro p hp; exact absurd hp (List.not_mem_nil p), List.nodup_nil,
    List.not_mem_nil '=', Or.inl ⟨rfl, rfl⟩⟩

/-- Every pair in the tokenizer output has an `=`-free key and a cleanly
replaying value. -/
theorem tokenizeBody_good (body : Str) :
    ∀ p ∈ tokenizeBody body, GoodPair p := by
  obtain ⟨hd, hnd, hk, hst⟩ := scanInv_run body scanInit scanInv_init
  unfold tokenizeBody finishScan
  split
  · apply odInsert_forall _ _ _ hd
    refine ⟨hk, ?_⟩
    rcases hst with ⟨_, hv⟩ | ⟨_, hrep⟩ | ⟨_, hrep⟩
    · refine Or.inl ?_
      rw [hv]
      intro d k
      rfl
    · exact Or.inl hrep
    · exact Or.inr hrep
  · exact hd

/-- The keys of the tokenizer output are pairwise distinct — a pair per
distinct key, held at the position of its first occurrence. -/
theorem tokenizeBody_keys_nodup (body : Str) :
    ((tokenizeBody body).map Prod.fst).Nodup := by
  obtain ⟨hd, hnd, hk, hst⟩ := scanInv_run body scanInit scanInv_init
  unfold tokenizeBody finishScan
  split
  · exact odInsert_nodup _ _ _ hnd
  · exact hnd

/-- Scanning a key that contains no `=` from state 0 only extends the key
buffer. -/
theorem foldl_key (k : Str) (hk : '=' ∉ k) :
    ∀ d k0, List.foldl stepc ⟨d, .key, k0, []⟩ k = ⟨d, .key, k0 ++ k, []⟩ := by
  induction k with
  | nil => intro d k0; simp
  | cons c k' ih =>
    intro d k0
    have hc : c ≠ '=' := by
      intro hcx
      exact hk (hcx ▸ List.mem_cons_self c k')
    have hk' : '=' ∉ k' := fun hm => hk (List.mem_cons_of_mem c hm)
    rw [List.foldl_cons]
    have hstep : stepc ⟨d, .key, k0, []⟩ c = ⟨d, .key, k0 ++ [c], []⟩ := by
      simp only [stepc]
      rw [if_neg (fun h => hc h)]
    rw [hstep, ih hk' d (k0 ++ [c]), List.append_assoc]
    rfl

/-! ## Claim C1 — the quoted key/value tokenizer

The claim's universal guarantee is formalised through a specification-level
decomposition written from the spec's words (§4.3): the body is split at
exactly the commas that are not inside a double-quoted value segment, each
resulting attribute text is split at its first `=` into a key and a
verbatim (quote-preserving) value, and the pairs are entered into the
ordered dictionary in input order, so keys appear at their first-seen
position.  The tokenizer is proved equal to this decomposition on every
body. -/

/-- Position inside the current attribute while deciding, in the spec's
terms, whether a comma splits: before the first `=` (reading the key), at
the very start of a value, inside an unquoted value, or inside a
double-quoted value segment (opened by a `"` at the start of the value and
closed by the next `"`). -/
inductive SegPos where
  | beforeEq
  | atValStart
  | inVal
  | inQuote
deriving DecidableEq, Repr

/-- Specification-level splitter: cut the body at exactly the splitting
commas — the commas seen while reading an attribute's value and not inside
a double-quoted value segment.  Commas before the attribute's first `=`
belong to the key, and commas inside a quoted value segment never split. -/
def splitUnq (st : SegPos) (acc : Str) : Str → List Str
  | [] => [acc]
  | c :: rest =>
    match st with
    | .beforeEq =>
      if c = '=' then splitUnq .atValStart (acc ++ [c]) rest
      else splitUnq .beforeEq (acc ++ [c]) rest
    | .atValStart =>
      if c = '"' then splitUnq .inQuote (acc ++ [c]) rest
      else if c = ',' then acc :: splitUnq .beforeEq [] rest
      else splitUnq .inVal (acc ++ [c]) rest
    | .inVal =>
      if c = ',' then acc :: splitUnq .beforeEq [] rest
      else splitUnq .inVal (acc ++ [c]) rest
    | .inQuote =>
      if c = '"' then splitUnq .inVal (acc ++ [c]) rest
      else splitUnq .inQuote (acc ++ [c]) rest

/-- The segments of a body between its splitting (non-quoted) commas. -/
def splitTopLevel (body : Str) : List Str := splitUnq .beforeEq [] body

/-- The (key, value) pair of one attribute text: the key is the text before
the first `=`, the value is the text after it, verbatim — quote characters
included; an attribute with no `=` is all key, with an empty value. -/
def pairOfSeg (seg : Str) : Str × Str :=
  match splitOnceEq seg with
  | (pre, some post) => (pre, post)
  | (pre, none) => (pre, [])

/-- The pairs the tokenizer commits, in input order: one pair per segment,
except that a final segment with an empty key is not committed (the
tokenizer's end-of-input commit is guarded by `k != ""`; mid-input comma
commits are not). -/
def dropLastEmptyKey : List (Str × Str) → List (Str × Str)
  | [] => []
  | [p] => if p.1 = [] then [] else [p]
  | p :: q :: rest => p :: dropLastEmptyKey (q :: rest)

/-- The committed pairs of a body, in first-seen input order. -/
def commitPairs (body : Str) : List (Str × Str) :=
  dropLastEmptyKey ((splitTopLevel body).map pairOfSeg)

/-- Entering a list of pairs into an ordered dictionary, in order, starting
from a given dictionary. -/
def odFoldD (d : List (Str × Str)) (L : List (Str × Str)) : List (Str × Str) :=
  L.foldl (fun d p => odInsert d p.1 p.2) d

/-- Entering a list of pairs into an initially empty ordered dictionary. -/
def odFold (L : List (Str × Str)) : List (Str × Str) := odFoldD [] L

/-- First-seen order: each key at the position of its first occurrence,
later occurrences dropped. -/
def firstSeen (L : List Str) : List Str :=
  L.foldl (fun acc x => if x ∈ acc then acc else acc ++ [x]) []

/-- `split("=", 1)` on a text with no `=` returns the whole text and no
second component. -/
theorem splitOnceEq_no_eq : ∀ k : Str, '=' ∉ k → splitOnceEq k = (k, none) := by
  intro k
  induction k with
  | nil => intro _; rfl
  | cons c r ih =>
    intro h
    have hc : c ≠ '=' := fun hx => h (hx ▸ List.mem_cons_self c r)
    have hr : '=' ∉ r := fun hm => h (List.mem_cons_of_mem c hm)
    simp only [splitOnceEq]
    rw [if_neg hc, ih hr]

/-- `split("=", 1)` on `k=v` with an `=`-free `k` returns `(k, v)`. -/
theorem splitOnceEq_append : ∀ k v : Str, '=' ∉ k →
    splitOnceEq (k ++ '=' :: v) = (k, some v) := by
  intro k
  induction k with
  | nil =>
    intro v _
    simp [splitOnceEq]
  | cons c r ih =>
    intro v h
    have hc : c ≠ '=' := fun hx => h (hx ▸ List.mem_cons_self c r)
    have hr : '=' ∉ r := fun hm => h (List.mem_cons_of_mem c hm)
    simp only [List.cons_append, splitOnceEq]
    rw [if_neg hc, List.append_eq, ih v hr]

/-- The pair of an `=`-free attribute text is all key. -/
theorem pairOfSeg_key (k : Str) (hk : '=' ∉ k) : pairOfSeg k = (k, []) := by
  simp only [pairOfSeg, splitOnceEq_no_eq k hk]

/-- The pair of the attribute text `k=v` with an `=`-free key is `(k, v)`,
the value verbatim. -/
theorem pairOfSeg_keyval (k v : Str) (hk : '=' ∉ k) :
    pairOfSeg (k ++ '=' :: v) = (k, v) := by
  simp only [pairOfSeg, splitOnceEq_append k v hk]

/-- The splitter always produces at least one segment. -/
theorem splitUnq_ne_nil : ∀ (rest : Str) (st : SegPos) (acc : Str),
    splitUnq st acc rest ≠ [] := by
  intro rest
  induction rest with
  | nil => intro st acc; simp [splitUnq]
  | cons c r ih =>
    intro st acc
    cases st <;> simp only [splitUnq] <;> split_ifs <;>
      first
        | exact List.cons_ne_nil _ _
        | exact ih _ _

/-- Dropping a possibly empty-keyed last pair ignores a non-last pair. -/
theorem dropLastEmptyKey_cons (p : Str × Str) (L : List (Str × Str))
    (h : L ≠ []) : dropLastEmptyKey (p :: L) = p :: dropLastEmptyKey L := by
  cases L with
  | nil => exact absurd rfl h
  | cons q rest => rfl

/-- The machine agrees with the specification-level decomposition: run from
any of the four corresponding machine/splitter states, finishing the scan
yields exactly the ordered-dictionary fold of the pairs of the remaining
segments.  The four conjuncts correspond to reading a key, standing at a
value start, inside an unquoted value, and inside a quoted value. -/
theorem machine_splits (rest : Str) :
    ∀ d : List (Str × Str),
      (∀ k, '=' ∉ k →
        finishScan (List.foldl stepc ⟨d, .key, k, []⟩ rest) =
          odFoldD d (dropLastEmptyKey
            ((splitUnq .beforeEq k rest).map pairOfSeg))) ∧
      (∀ k, '=' ∉ k →
        finishScan (List.foldl stepc ⟨d, .val, k, []⟩ rest) =
          odFoldD d (dropLastEmptyKey
            ((splitUnq .atValStart (k ++ ['=']) rest).map pairOfSeg))) ∧
      (∀ k v, '=' ∉ k → v ≠ [] →
        finishScan (List.foldl stepc ⟨d, .val, k, v⟩ rest) =
          odFoldD d (dropLastEmptyKey
            ((splitUnq .inVal (k ++ '=' :: v) rest).map pairOfSeg))) ∧
      (∀ k v, '=' ∉ k →
        finishScan (List.foldl stepc ⟨d, .quoted, k, v⟩ rest) =
          odFoldD d (dropLastEmptyKey
            ((splitUnq .inQuote (k ++ '=' :: v) rest).map pairOfSeg))) := by
  induction rest with
  | nil =>
    intro d
    refine ⟨?_, ?_, ?_, ?_⟩
    · intro k hk
      show finishScan ⟨d, .key, k, []⟩ =
        odFoldD d (dropLastEmptyKey ([k].map pairOfSeg))
      rw [List.map_singleton, pairOfSeg_key k hk]
      by_cases hke : k = []
      · subst hke
        simp [finishScan, dropLastEmptyKey, odFoldD]
      · simp [finishScan, dropLastEmptyKey, odFoldD, hke]
    · intro k hk
      show finishScan ⟨d, .val, k, []⟩ =
        odFoldD d (dropLastEmptyKey ([k ++ ['=']].map pairOfSeg))
      rw [List.map_singleton, pairOfSeg_keyval k [] hk]
      by_cases hke : k = []
      · subst hke
        simp [finishScan, dropLastEmptyKey, odFoldD]
      · simp [finishScan, dropLastEmptyKey, odFoldD, hke]
    · intro k v hk _
      show finishScan ⟨d, .val, k, v⟩ =
        odFoldD d (dropLastEmptyKey ([k ++ '=' :: v].map pairOfSeg))
      rw [List.map_singleton, pairOfSeg_keyval k v hk]
      by_cases hke : k = []
      · subst hke
        simp [finishScan, dropLastEmptyKey, odFoldD]
      · simp [finishScan, dropLastEmptyKey, odFoldD, hke]
    · intro k v hk
      show finishScan ⟨d, .quoted, k, v⟩ =
        odFoldD d (dropLastEmptyKey ([k ++ '=' :: v].map pairOfSeg))
      rw [List.map_singleton, pairOfSeg_keyval k v hk]
      by_cases hke : k = []
      · subst hke
        simp [finishScan, dropLastEmptyKey, odFoldD]
      · simp [finishScan, dropLastEmptyKey, odFoldD, hke]
  | cons c rest ih =>
    intro d
    refine ⟨?_, ?_, ?_, ?_⟩
    · -- reading a key
      intro k hk
      rw [List.foldl_cons]
      by_cases hc : c = '='
      · have hs : stepc ⟨d, .key, k, []⟩ c = ⟨d, .val, k, []⟩ := by
          simp [stepc, hc]
        have hsp : splitUnq .beforeEq k (c :: rest) =
            splitUnq .atValStart (k ++ ['=']) rest := by
          simp [splitUnq, hc]
        rw [hs, hsp]
        exact (ih d).2.1 k hk
      · have hs : stepc ⟨d, .key, k, []⟩ c = ⟨d, .key, k ++ [c], []⟩ := by
          simp only [stepc]
          rw [if_neg hc]
        have hsp : splitUnq .beforeEq k (c :: rest) =
            splitUnq .beforeEq (k ++ [c]) rest := by
          simp [splitUnq, hc]
        have hk' : '=' ∉ k ++ [c] := by
          intro hm
          rcases List.mem_append.mp hm with h | h
          · exact hk h
          · rw [List.mem_singleton] at h
            exact hc h.symm
        rw [hs, hsp]
        exact (ih d).1 (k ++ [c]) hk'
    · -- at a value start
      intro k hk
      rw [List.foldl_cons]
      by_cases hq : c = '"'
      · have hs : stepc ⟨d, .val, k, []⟩ c = ⟨d, .quoted, k, ['"']⟩ := by
          simp [stepc, hq]
        have hsp : splitUnq .atValStart (k ++ ['=']) (c :: rest) =
            splitUnq .inQuote (k ++ '=' :: ['"']) rest := by
          simp [splitUnq, hq]
        rw [hs, hsp]
        exact (ih d).2.2.2 k ['"'] hk
      · by_cases hcc : c = ','
        · have hs : stepc ⟨d, .val, k, []⟩ c =
              ⟨odInsert d k [], .key, [], []⟩ := by
            simp only [stepc]
            rw [if_neg (fun h => hq h.2), if_pos hcc]
          have hsp : splitUnq .atValStart (k ++ ['=']) (c :: rest) =
              (k ++ ['=']) :: splitUnq .beforeEq [] rest := by
            simp [splitUnq, hq, hcc]
          rw [hs, hsp, List.map_cons, pairOfSeg_keyval k [] hk,
            dropLastEmptyKey_cons _ _
              (fun h => splitUnq_ne_nil rest .beforeEq []
                (List.map_eq_nil_iff.mp h))]
          show finishScan (List.foldl stepc ⟨odInsert d k [], .key, [], []⟩ rest) =
            odFoldD (odInsert d k []) (dropLastEmptyKey
              ((splitUnq .beforeEq [] rest).map pairOfSeg))
          exact (ih (odInsert d k [])).1 [] (List.not_mem_nil '=')
        · have hs : stepc ⟨d, .val, k, []⟩ c = ⟨d, .val, k, [c]⟩ := by
            simp only [stepc]
            rw [if_neg (fun h => hq h.2), if_neg hcc]
            simp only [List.nil_append]
          have hsp : splitUnq .atValStart (k ++ ['=']) (c :: rest) =
              splitUnq .inVal (k ++ '=' :: [c]) rest := by
            simp [splitUnq, hq, hcc]
          rw [hs, hsp]
          exact (ih d).2.2.1 k [c] hk (List.cons_ne_nil c [])
    · -- inside an unquoted value
      intro k v hk hv
      rw [List.foldl_cons]
      by_cases hcc : c = ','
      · have hs : stepc ⟨d, .val, k, v⟩ c =
            ⟨odInsert d k v, .key, [], []⟩ := by
          simp only [stepc]
          rw [if_neg (fun h => hv h.1), if_pos hcc]
        have hsp : splitUnq .inVal (k ++ '=' :: v) (c :: rest) =
            (k ++ '=' :: v) :: splitUnq .beforeEq [] rest := by
          simp [splitUnq, hcc]
        rw [hs, hsp, List.map_cons, pairOfSeg_keyval k v hk,
          dropLastEmptyKey_cons _ _
            (fun h => splitUnq_ne_nil rest .beforeEq []
              (List.map_eq_nil_iff.mp h))]
        show finishScan (List.foldl stepc ⟨odInsert d k v, .key, [], []⟩ rest) =
          odFoldD (odInsert d k v) (dropLastEmptyKey
            ((splitUnq .beforeEq [] rest).map pairOfSeg))
        exact (ih (odInsert d k v)).1 [] (List.not_mem_nil '=')
      · have hs : stepc ⟨d, .val, k, v⟩ c = ⟨d, .val, k, v ++ [c]⟩ := by
          simp only [stepc]
          rw [if_neg (fun h => hv h.1), if_neg hcc]
        have hsp : splitUnq .inVal (k ++ '=' :: v) (c :: rest) =
            splitUnq .inVal (k ++ '=' :: (v ++ [c])) rest := by
          simp [splitUnq, hcc]
        rw [hs, hsp]
        exact (ih d).2.2.1 k (v ++ [c]) hk (by simp)
    · -- inside a quoted value segment
      intro k v hk
      rw [List.foldl_cons]
      by_cases hq : c = '"'
      · have hs : stepc ⟨d, .quoted, k, v⟩ c = ⟨d, .val, k, v ++ ['"']⟩ := by
          simp [stepc, hq]
        have hsp : splitUnq .inQuote (k ++ '=' :: v) (c :: rest) =
            splitUnq .inVal (k ++ '=' :: (v ++ ['"'])) rest := by
          simp [splitUnq, hq]
        rw [hs, hsp]
        exact (ih d).2.2.1 k (v ++ ['"']) hk (by simp)
      · have hs : stepc ⟨d, .quoted, k, v⟩ c = ⟨d, .quoted, k, v ++ [c]⟩ := by
          simp only [stepc]
          rw [if_neg hq]
        have hsp : splitUnq .inQuote (k ++ '=' :: v) (c :: rest) =
            splitUnq .inQuote (k ++ '=' :: (v ++ [c])) rest := by
          simp [splitUnq, hq]
        rw [hs, hsp]
        exact (ih d).2.2.2 k (v ++ [c]) hk

/-- Every body tokenizes to the ordered-dictionary fold of its committed
pairs: splits happen at exactly the commas outside double-quoted value
segments, each attribute is split at its first `=`, and values are kept
verbatim, quote characters included. -/
theorem tokenizeBody_spec (body : Str) :
    tokenizeBody body = odFold (commitPairs body) :=
  ((machine_splits body) []).1 [] (List.not_mem_nil '=')

/-- `OrderedDict` assignment with an already present key leaves the key
list unchanged. -/
theorem odInsert_keys_present (d : List (Str × Str)) (k v : Str)
    (h : k ∈ d.map Prod.fst) :
    (odInsert d k v).map Prod.fst = d.map Prod.fst := by
  have hany : d.any (fun p => p.1 = k) = true := by
    obtain ⟨p, hp, hpk⟩ := List.mem_map.mp h
    exact List.any_eq_true.mpr ⟨p, hp, by simp [hpk]⟩
  unfold odInsert
  rw [if_pos hany, List.map_map]
  apply List.map_congr_left
  intro p _
  by_cases hpk : p.1 = k
  · simp [hpk]
  · simp [hpk]

/-- `OrderedDict` assignment with a new key appends it to the key list. -/
theorem odInsert_keys_absent (d : List (Str × Str)) (k v : Str)
    (h : k ∉ d.map Prod.fst) :
    (odInsert d k v).map Prod.fst = d.map Prod.fst ++ [k] := by
  have hany : ¬d.any (fun p => p.1 = k) = true := by
    intro hx
    obtain ⟨p, hp, hpk⟩ := List.any_eq_true.mp hx
    exact h (List.mem_map.mpr ⟨p, hp, by simpa using hpk⟩)
  unfold odInsert
  rw [if_neg hany, List.map_append]
  rfl

/-- The key list of an ordered-dictionary fold keeps each key at the
position of its first occurrence in the inserted pairs. -/
theorem odFoldD_keys : ∀ (L : List (Str × Str)) (d : List (Str × Str)),
    (odFoldD d L).map Prod.fst =
      (L.map Prod.fst).foldl
        (fun acc x => if x ∈ acc then acc else acc ++ [x])
        (d.map Prod.fst) := by
  intro L
  induction L with
  | nil => intro d; rfl
  | cons p L ih =>
    intro d
    show (odFoldD (odInsert d p.1 p.2) L).map Prod.fst = _
    rw [ih (odInsert d p.1 p.2), List.map_cons, List.foldl_cons]
    by_cases hm : p.1 ∈ d.map Prod.fst
    · rw [odInsert_keys_present d p.1 p.2 hm, if_pos hm]
    · rw [odInsert_keys_absent d p.1 p.2 hm, if_neg hm]

/-- The tokenizer's output keys are the committed keys in first-seen input
order. -/
theorem tokenizeBody_first_seen (body : Str) :
    (tokenizeBody body).map Prod.fst =
      firstSeen ((commitPairs body).map Prod.fst) := by
  rw [tokenizeBody_spec]
  exact odFoldD_keys (commitPairs body) []

/-- Claim C1: for every attribute body, the tokenizer splits into (key,
value) pairs at exactly the commas not inside a double-quoted value
segment (`splitUnq`, written from the spec's description of the quoted
value segments), splits each attribute at its first `=` with the value —
quote characters included — kept verbatim (`pairOfSeg`), and emits pairs
in first-seen input order (ordered-dictionary insertion, `firstSeen`); in
particular `ID=DP,Description="a,b,c",Source="x"` yields exactly the three
pairs in order, the quoted commas producing no fourth pair. -/
theorem c1_tokenizer_quoted_comma :
    (∀ body, tokenizeBody body = odFold (commitPairs body)) ∧
    (∀ body, (tokenizeBody body).map Prod.fst =
      firstSeen ((commitPairs body).map Prod.fst)) ∧
    tokenizeBody "ID=DP,Description=\"a,b,c\",Source=\"x\"".toList =
      [("ID".toList, "DP".toList),
       ("Description".toList, "\"a,b,c\"".toList),
       ("Source".toList, "\"x\"".toList)] :=
  ⟨tokenizeBody_spec, tokenizeBody_first_seen, by decide⟩

/-! ## Claim C6 — idempotence of tokenization on its own output -/

/-- Claim C6 is false of the code in one corner: a pair committed with an
empty key (produced by a body whose first attribute has no key, ended by a
comma) does not survive re-tokenization — the final `if k != ""` commit
refuses an empty key, so `=a` tokenizes to nothing, not to the original
pair. -/
theorem c6_counterexample :
    (([], "a".toList) ∈ tokenizeBody "=a,".toList) ∧
    tokenizeBody (([] : Str) ++ '=' :: "a".toList) = [] ∧
    tokenizeBody (([] : Str) ++ '=' :: "a".toList) ≠
      [(([] : Str), "a".toList)] := by
  refine ⟨by decide, by decide, by decide⟩

/-- Amended claim C6: for every pair `(k, v)` produced by the tokenizer
whose key is nonempty — every pair except the empty-key corner case —
re-tokenizing `k=v` as a fresh body yields exactly the single pair
`(k, v)`; quote-preserved value literals are never split further. -/
theorem c6_amended (body k v : Str) (hmem : (k, v) ∈ tokenizeBody body)
    (hk : k ≠ []) : tokenizeBody (k ++ '=' :: v) = [(k, v)] := by
  obtain ⟨hkeq, hrep⟩ := tokenizeBody_good body (k, v) hmem
  unfold tokenizeBody
  rw [List.foldl_append]
  have hinit : scanInit = (⟨[], .key, [], []⟩ : Scan) := rfl
  rw [hinit, foldl_key k hkeq [] [], List.foldl_cons]
  have hstep : stepc ⟨[], .key, [] ++ k, []⟩ '=' = ⟨[], .val, [] ++ k, []⟩ := by
    simp [stepc]
  rw [hstep]
  simp only [List.nil_append]
  rcases hrep with h | h
  · rw [h [] k]
    unfold finishScan odInsert
    simp [hk]
  · rw [h [] k]
    unfold finishScan odInsert
    simp [hk]

/-- Witness for `c6_amended` at a concrete tokenizer output pair. -/
theorem c6_amended_witness :
    (("ID".toList, "DP".toList) ∈ tokenizeBody "ID=DP,N=1".toList) ∧
    ("ID".toList ≠ ([] : Str)) ∧
    tokenizeBody ("ID".toList ++ '=' :: "DP".toList) =
      [("ID".toList, "DP".toList)] :=
  ⟨by decide, by decide, c6_amended "ID=DP,N=1".toList _ _ (by decide) (by decide)⟩

/-! ## Lemmas for claim C8 — the generic metadata reader -/

/-- A successful `=<` search implies an `=` occurs in the scanned text. -/
theorem seekEqLt_mem : ∀ l : Str, seekEqLt l = true → '=' ∈ l := by
  intro l
  induction l with
  | nil => intro h; exact absurd h (by simp [seekEqLt])
  | cons c r ih =>
    intro h
    unfold seekEqLt at h
    by_cases h1 : c = '=' ∧ r.head? = some '<'
    · exact List.mem_cons.mpr (Or.inl h1.1.symm)
    · rw [if_neg h1] at h
      by_cases h2 : c = '\n'
      · rw [if_pos h2] at h
        exact absurd h (by simp)
      · rw [if_neg h2] at h
        exact List.mem_cons.mpr (Or.inr (ih h))

/-- A text with no `<` at all cannot contain the `=<` fragment. -/
theorem seekEqLt_no_lt : ∀ l : Str, '<' ∉ l → seekEqLt l = false := by
  intro l
  induction l with
  | nil => intro _; rfl
  | cons c r ih =>
    intro hl
    unfold seekEqLt
    have h1 : ¬(c = '=' ∧ r.head? = some '<') := by
      rintro ⟨-, hh⟩
      cases r with
      | nil => exact absurd hh (by simp)
      | cons b rr =>
        simp only [List.head?_cons, Option.some.injEq] at hh
        exact hl (List.mem_cons_of_mem c (hh ▸ List.mem_cons_self b rr))
    rw [if_neg h1]
    by_cases h2 : c = '\n'
    · rw [if_pos h2]
    · rw [if_neg h2]
      exact ih (fun hm => hl (List.mem_cons_of_mem c hm))

/-- When an `=` occurs in the input, `split("=", 1)` produces a second
component (no `IndexError`). -/
theorem splitOnceEq_isSome : ∀ s : Str, '=' ∈ s → (splitOnceEq s).2.isSome := by
  intro s
  induction s with
  | nil => intro h; exact absurd h (List.not_mem_nil _)
  | cons c r ih =>
    intro h
    unfold splitOnceEq
    by_cases hc : c = '='
    · rw [if_pos hc]
      rfl
    · rw [if_neg hc]
      have : '=' ∈ r := by
        rcases List.mem_cons.mp h with h | h
        · exact absurd h.symm hc
        · exact h
      simpa using ih this

/-- A line matching the bracketed-line pattern `##.+=<` contains an `=`. -/
theorem hashBracketMatch_mem (s : Str) (h : hashBracketMatch s = true) :
    '=' ∈ s := by
  cases s with
  | nil => exact absurd h (by simp [hashBracketMatch])
  | cons c1 s1 =>
    cases s1 with
    | nil => exact absurd h (by simp [hashBracketMatch])
    | cons c2 s2 =>
      cases s2 with
      | nil => exact absurd h (by simp [hashBracketMatch])
      | cons c3 r =>
        have hred : hashBracketMatch (c1 :: c2 :: c3 :: r) =
            if c1 = '#' ∧ c2 = '#' ∧ c3 ≠ '\n' then seekEqLt r else false := rfl
        rw [hred] at h
        by_cases h1 : c1 = '#' ∧ c2 = '#' ∧ c3 ≠ '\n'
        · rw [if_pos h1] at h
          have hm := seekEqLt_mem r h
          exact List.mem_cons.mpr (Or.inr (List.mem_cons.mpr (Or.inr
            (List.mem_cons.mpr (Or.inr hm)))))
        · rw [if_neg h1] at h
          exact absurd h (by simp)

/-- A list all of whose elements satisfy the predicate is its own
`takeWhile`. -/
theorem takeWhile_all {p : Char → Bool} :
    ∀ l : Str, (∀ c ∈ l, p c = true) → l.takeWhile p = l := by
  intro l
  induction l with
  | nil => intro _; rfl
  | cons c r ih =>
    intro h
    rw [List.takeWhile_cons, h c (List.mem_cons_self c r)]
    simp [ih (fun x hx => h x (List.mem_cons_of_mem c hx))]

/-- The `meta_pattern` scan on a well-formed bare `key=value` body: with an
`=`-free, newline-free, nonempty key and a newline-free, nonempty value the
lazy scan stops at the separating `=` and returns the key and value
verbatim. -/
theorem metaScan_bare (k : Str) :
    ∀ acc : Str, acc ++ k ≠ [] → '=' ∉ k → '\n' ∉ k →
      ∀ v : Str, v ≠ [] → '\n' ∉ v →
        metaScan acc (k ++ '=' :: v) = some (acc ++ k, v) := by
  induction k with
  | nil =>
    intro acc hacc _ _ v hv hvn
    rw [List.append_nil] at hacc
    have hval : v.takeWhile (fun x => x ≠ '\n') = v := by
      apply takeWhile_all
      intro c hc
      simp only [ne_eq, decide_eq_true_eq]
      intro hcn
      exact hvn (hcn ▸ hc)
    simp only [List.nil_append, List.append_nil, metaScan, hval]
    simp [hacc, hv]
  | cons c k' ih =>
    intro acc hacc hk hkn v hv hvn
    have hc1 : c ≠ '\n' := fun h => hkn (h ▸ List.mem_cons_self c k')
    have hc2 : c ≠ '=' := fun h => hk (h ▸ List.mem_cons_self c k')
    have hk' : '=' ∉ k' := fun h => hk (List.mem_cons_of_mem c h)
    have hkn' : '\n' ∉ k' := fun h => hkn (List.mem_cons_of_mem c h)
    show metaScan acc (c :: (k' ++ '=' :: v)) = _
    simp only [metaScan]
    rw [if_neg (fun h => hc1 h), if_neg (fun h => hc2 h)]
    have := ih (acc ++ [c]) (by simp) hk' hkn' v hv hvn
    rw [this, List.append_assoc]
    rfl

/-- The generic metadata reader is total: no header line makes it raise.
On the bracketed path the matched `=<` guarantees the `split("=", 1)`
access `items[1]` cannot fail; the other paths always produce a pair. -/
theorem read_meta_total (s : Str) : (read_meta s).isSome := by
  unfold read_meta
  by_cases hb : hashBracketMatch s = true
  · rw [if_pos hb]
    have hsp := splitOnceEq_isSome s (hashBracketMatch_mem s hb)
    unfold read_meta_hash
    cases hq : splitOnceEq s with
    | mk pre post =>
      cases post with
      | none => rw [hq] at hsp; exact absurd hsp (by simp)
      | some t => simp [hq]
  · rw [if_neg hb]
    cases hm : metaMatch s with
    | none => simp
    | some p => cases p with | mk a b => simp

/-- A bare `##key=value` line (no `<` anywhere, so the bracketed pattern
cannot fire) is split on the separating `=` into the verbatim key and
value. -/
theorem read_meta_bare (k v : Str) (hk0 : k ≠ []) (hk1 : '=' ∉ k)
    (hk2 : '\n' ∉ k) (hk3 : '<' ∉ k) (hv0 : v ≠ []) (hv1 : '\n' ∉ v)
    (hv2 : '<' ∉ v) :
    read_meta ('#' :: '#' :: (k ++ '=' :: v)) = some (k, .scalar v) := by
  have hb : hashBracketMatch ('#' :: '#' :: (k ++ '=' :: v)) = false := by
    cases k with
    | nil => exact absurd rfl hk0
    | cons c k' =>
      have hns : seekEqLt (k' ++ '=' :: v) = false := by
        apply seekEqLt_no_lt
        intro hmem
        rcases List.mem_append.mp hmem with h | h
        · exact hk3 (List.mem_cons_of_mem c h)
        · rcases List.mem_cons.mp h with h | h
          · exact absurd h (by decide)
          · exact hv2 h
      have hred : hashBracketMatch ('#' :: '#' :: c :: (k' ++ '=' :: v)) =
          if ('#' : Char) = '#' ∧ ('#' : Char) = '#' ∧ c ≠ '\n' then
            seekEqLt (k' ++ '=' :: v)
          else false := rfl
      show hashBracketMatch ('#' :: '#' :: c :: (k' ++ '=' :: v)) = false
      rw [hred, hns]
      split <;> rfl
  unfold read_meta
  rw [hb]
  simp only [Bool.false_eq_true, if_false]
  have hm : metaMatch ('#' :: '#' :: (k ++ '=' :: v)) = some (k, v) := by
    show metaScan [] (k ++ '=' :: v) = some (k, v)
    have := metaScan_bare k [] (by simpa using hk0) hk1 hk2 v hv0 hv1
    simpa using this
  rw [hm]

/-! ## Claim C8 — generic metadata parsing never raises -/

/-- Claim C8: `read_meta` never raises on any header line; a bare
`##key=value` line is split on the separating `=` into the verbatim pair
(`##fileDate=20230101` gives `(fileDate, 20230101)`), and a line with no
`=` at all yields the hash-stripped key paired with the `"none"`
sentinel. -/
theorem c8_generic_meta :
    (∀ s, (read_meta s).isSome) ∧
    read_meta "##fileDate=20230101".toList =
      some ("fileDate".toList, .scalar "20230101".toList) ∧
    read_meta "##custom".toList =
      some ("custom".toList, .scalar "none".toList) ∧
    (∀ k v, k ≠ [] → '=' ∉ k → '\n' ∉ k → '<' ∉ k → v ≠ [] → '\n' ∉ v →
      '<' ∉ v →
      read_meta ('#' :: '#' :: (k ++ '=' :: v)) = some (k, .scalar v)) :=
  ⟨read_meta_total, rfl, rfl,
    fun k v h1 h2 h3 h4 h5 h6 h7 => read_meta_bare k v h1 h2 h3 h4 h5 h6 h7⟩

/-- Witness for the hypothesis-bearing part of `c8_generic_meta`. -/
theorem c8_generic_meta_witness :
    ("fileDate".toList ≠ ([] : Str)) ∧
    read_meta ('#' :: '#' :: ("fileDate".toList ++ '=' :: "20230101".toList)) =
      some ("fileDate".toList, MetaVal.scalar "20230101".toList) :=
  ⟨by decide,
    c8_generic_meta.2.2.2 "fileDate".toList "20230101".toList (by decide)
      (by decide) (by decide) (by decide) (by decide) (by decide) (by decide)⟩

/-! ## Claim C5 — malformed structured lines -/

/-- An INFO line missing the required Type field. -/
def infoMissingTypeLine : Str :=
  "##INFO=<ID=X,Number=1,Description=\"d\">".toList

/-- A FILTER line missing the required Description field. -/
def filterMissingDescLine : Str := "##FILTER=<ID=q10>".toList

/-- An ALT line missing the required Description field. -/
def altMissingDescLine : Str := "##ALT=<ID=DEL>".toList

/-- A FORMAT line missing the required Number field. -/
def formatMissingNumberLine : Str :=
  "##FORMAT=<ID=GT,Type=String,Description=\"d\">".toList

/-- A contig line without the bracketed syntax at all. -/
def contigNoBracketLine : Str := "##contig=chr1".toList

/-- Claim C5: a structured line that fails its tag's grammar — here an INFO
line missing the Type field, and one representative failure per other tag —
raises the malformed-line error carrying the tag name and the raw line, and
produces no partial record; in general every grammar failure of a reader
yields exactly that error. -/
theorem c5_malformed_lines :
    read_info infoMissingTypeLine =
      .error (.structuredLineMalformed "INFO".toList infoMissingTypeLine) ∧
    read_filter filterMissingDescLine =
      .error (.structuredLineMalformed "FILTER".toList filterMissingDescLine) ∧
    read_alt altMissingDescLine =
      .error (.structuredLineMalformed "ALT".toList altMissingDescLine) ∧
    read_format formatMissingNumberLine =
      .error
        (.structuredLineMalformed "FORMAT".toList formatMissingNumberLine) ∧
    read_contig contigNoBracketLine =
      .error (.structuredLineMalformed "contig".toList contigNoBracketLine) ∧
    (∀ s, parseInfo s = none →
      read_info s = .error (.structuredLineMalformed "INFO".toList s)) ∧
    (∀ s, parseFilter s = none →
      read_filter s = .error (.structuredLineMalformed "FILTER".toList s)) ∧
    (∀ s, parseAlt s = none →
      read_alt s = .error (.structuredLineMalformed "ALT".toList s)) ∧
    (∀ s, parseFormat s = none →
      read_format s = .error (.structuredLineMalformed "FORMAT".toList s)) ∧
    (∀ s, parseContig s = none →
      read_contig s = .error (.structuredLineMalformed "contig".toList s)) := by
  refine ⟨rfl, rfl, rfl, rfl, rfl, ?_, ?_, ?_, ?_, ?_⟩
  · intro s h; simp [read_info, h]
  · intro s h; simp [read_filter, h]
  · intro s h; simp [read_alt, h]
  · intro s h; simp [read_format, h]
  · intro s h; simp [read_contig, h]

/-- Witness for the hypothesis-bearing parts of `c5_malformed_lines`. -/
theorem c5_malformed_lines_witness :
    parseInfo infoMissingTypeLine = none ∧
    read_info infoMissingTypeLine =
      .error (.structuredLineMalformed "INFO".toList infoMissingTypeLine) :=
  ⟨rfl, c5_malformed_lines.2.2.2.2.2.1 infoMissingTypeLine rfl⟩

/-! ## Claim C7 — the extent of the captured id -/

/-- The id committed by `idComma` is the text up to the first comma. -/
theorem idComma_id (t idv : Str) (r : Str) (h : idComma t = some (idv, r)) :
    idv = t.takeWhile (fun c => c ≠ ',') := by
  simp only [idComma] at h
  split at h
  · exact absurd h (by simp)
  · split at h
    · simp only [Option.some.injEq, Prod.mk.injEq] at h
      exact h.1.symm
    · exact absurd h (by simp)

/-- A successfully matched INFO line captures as id exactly the text
between `ID=` and the first following comma. -/
theorem read_info_ok_id (s : Str) (p : Str × Info)
    (h : read_info s = .ok p) :
    ∃ t, dropLiteral "##INFO=<ID=".toList s = some t ∧
      p.2.id = t.takeWhile (fun c => c ≠ ',') := by
  unfold read_info at h
  split at h
  · exact absurd h (by simp)
  next id numTok ty desc src ver hp =>
    split at h
    · exact absurd h (by simp)
    next num hnum =>
      simp only [Except.ok.injEq] at h
      unfold parseInfo at hp
      split at hp
      · exact absurd hp (by simp)
      next t ht =>
        rw [Option.bind_eq_some] at hp
        obtain ⟨⟨id2, r⟩, hid, hmap⟩ := hp
        rw [Option.map_eq_some'] at hmap
        obtain ⟨q, hq, hqq⟩ := hmap
        refine ⟨t, ht, ?_⟩
        have hids : id2 = t.takeWhile (fun c => c ≠ ',') :=
          idComma_id t id2 r hid
        have hpid : p.2.id = id := by rw [← h]
        have : id2 = id := by
          have := congrArg Prod.fst hqq
          simpa using this
        rw [hpid, ← this, hids]

/-- A successfully matched FILTER line captures as id exactly the text
between `ID=` and the first following comma. -/
theorem read_filter_ok_id (s : Str) (p : Str × Filt)
    (h : read_filter s = .ok p) :
    ∃ t, dropLiteral "##FILTER=<ID=".toList s = some t ∧
      p.2.id = t.takeWhile (fun c => c ≠ ',') := by
  unfold read_filter at h
  split at h
  · exact absurd h (by simp)
  next id desc hp =>
    simp only [Except.ok.injEq] at h
    unfold parseFilter at hp
    split at hp
    · exact absurd hp (by simp)
    next t ht =>
      rw [Option.bind_eq_some] at hp
      obtain ⟨⟨id2, r⟩, hid, hmap⟩ := hp
      rw [Option.map_eq_some'] at hmap
      obtain ⟨q, hq, hqq⟩ := hmap
      refine ⟨t, ht, ?_⟩
      have hids : id2 = t.takeWhile (fun c => c ≠ ',') :=
        idComma_id t id2 r hid
      have hpid : p.2.id = id := by rw [← h]
      have : id2 = id := by
        have := congrArg Prod.fst hqq
        simpa using this
      rw [hpid, ← this, hids]

/-- A successfully matched ALT line captures as id exactly the text between
`ID=` and the first following comma. -/
theorem read_alt_ok_id (s : Str) (p : Str × Alt)
    (h : read_alt s = .ok p) :
    ∃ t, dropLiteral "##ALT=<ID=".toList s = some t ∧
      p.2.id = t.takeWhile (fun c => c ≠ ',') := by
  unfold read_alt at h
  split at h
  · exact absurd h (by simp)
  next id desc hp =>
    simp only [Except.ok.injEq] at h
    unfold parseAlt at hp
    split at hp
    · exact absurd hp (by simp)
    next t ht =>
      rw [Option.bind_eq_some] at hp
      obtain ⟨⟨id2, r⟩, hid, hmap⟩ := hp
      rw [Option.map_eq_some'] at hmap
      obtain ⟨q, hq, hqq⟩ := hmap
      refine ⟨t, ht, ?_⟩
      have hids : id2 = t.takeWhile (fun c => c ≠ ',') :=
        idComma_id t id2 r hid
      have hpid : p.2.id = id := by rw [← h]
      have : id2 = id := by
        have := congrArg Prod.fst hqq
        simpa using this
      rw [hpid, ← this, hids]

/-- A successfully matched contig line captures as id exactly the text
between `ID=` and the first following comma or `>`. -/
theorem read_contig_ok_id (s : Str) (p : Str × Contig)
    (h : read_contig s = .ok p) :
    ∃ t, dropLiteral "##contig=<ID=".toList s = some t ∧
      p.2.id = t.takeWhile (fun c => ¬(c = ',' ∨ c = '>')) := by
  unfold read_contig at h
  split at h
  · exact absurd h (by simp)
  next id lenTok hp =>
    split at h
    · exact absurd h (by simp)
    next len hlen =>
      simp only [Except.ok.injEq] at h
      simp only [parseContig] at hp
      split at hp
      · exact absurd hp (by simp)
      next t ht =>
        split at hp
        · exact absurd hp (by simp)
        next hne =>
          rw [Option.map_eq_some'] at hp
          obtain ⟨q, hq, hqq⟩ := hp
          refine ⟨t, ht, ?_⟩
          have hpid : p.2.id = id := by rw [← h]
          have : t.takeWhile (fun c => ¬(c = ',' ∨ c = '>')) = id := by
            have := congrArg Prod.fst hqq
            simpa using this
          rw [hpid, ← this]

/-- A FORMAT line on which the greedy id absorbs a top-level comma. -/
def formatGreedyLine : Str :=
  "##FORMAT=<ID=A,B,Number=1,Type=String,Description=\"x\">".toList

/-- Claim C7 is false of the code for FORMAT lines: `format_pattern` uses
the greedy `ID=(?P<id>.+),`, so on
`##FORMAT=<ID=A,B,Number=1,Type=String,Description="x">` the line parses
successfully with id `A,B` — absorbing the text beyond the first top-level
comma, whose extent is just `A`. -/
theorem c7_counterexample :
    read_format formatGreedyLine =
      .ok ("A,B".toList,
        ⟨"A,B".toList, some 1, "String".toList, "x".toList⟩) ∧
    (dropLiteral "##FORMAT=<ID=".toList formatGreedyLine).map
        (fun t => t.takeWhile (fun c => c ≠ ',')) = some "A".toList ∧
    "A,B".toList ≠ "A".toList := by
  refine ⟨rfl, rfl, by decide⟩

/-- Amended claim C7: for INFO, FILTER, ALT and contig lines the record id
is exactly the text between `ID=` and the next comma (comma or `>` for
contig) — those grammars cannot absorb a comma into the id — but for FORMAT
lines the greedy grammar can absorb top-level commas into the id, as the
`ID=A,B` line shows. -/
theorem c7_amended :
    (∀ s p, read_info s = .ok p →
      ∃ t, dropLiteral "##INFO=<ID=".toList s = some t ∧
        p.2.id = t.takeWhile (fun c => c ≠ ',')) ∧
    (∀ s p, read_filter s = .ok p →
      ∃ t, dropLiteral "##FILTER=<ID=".toList s = some t ∧
        p.2.id = t.takeWhile (fun c => c ≠ ',')) ∧
    (∀ s p, read_alt s = .ok p →
      ∃ t, dropLiteral "##ALT=<ID=".toList s = some t ∧
        p.2.id = t.takeWhile (fun c => c ≠ ',')) ∧
    (∀ s p, read_contig s = .ok p →
      ∃ t, dropLiteral "##contig=<ID=".toList s = some t ∧
        p.2.id = t.takeWhile (fun c => ¬(c = ',' ∨ c = '>'))) ∧
    (read_format formatGreedyLine =
      .ok ("A,B".toList,
        ⟨"A,B".toList, some 1, "String".toList, "x".toList⟩) ∧
      ',' ∈ "A,B".toList) :=
  ⟨read_info_ok_id, read_filter_ok_id, read_alt_ok_id, read_contig_ok_id,
    rfl, by decide⟩

/-- The INFO line of the spec's first testable property. -/
def infoDepthLine : Str :=
  "##INFO=<ID=DP,Number=1,Type=Integer,Description=\"Depth\">".toList

/-- Witness for the hypothesis-bearing parts of `c7_amended`. -/
theorem c7_amended_witness :
    read_info infoDepthLine =
      .ok ("DP".toList,
        ⟨"DP".toList, some 1, "Integer".toList, "Depth".toList, none,
          none⟩) ∧
    ∃ t, dropLiteral "##INFO=<ID=".toList infoDepthLine = some t ∧
      "DP".toList = t.takeWhile (fun c => c ≠ ',') :=
  ⟨rfl,
    c7_amended.1 infoDepthLine
      ("DP".toList,
        ⟨"DP".toList, some 1, "Integer".toList, "Depth".toList, none, none⟩)
      rfl⟩

end Scsnv
